import Mathlib

/-!
Shallow embedding of `src/spotify-clean.py` (Spotify Playlist Cleaner).

The embedding models the reconciliation core of the tool: the paginated
scan of a playlist (`playlist_items` + `sp.next` loops), the criterion
matchers (artist, track name, duplicate grouping, release-year cutoff),
and the chunked batch remover with rate-limit retry and per-item
fallback.  Remote API behaviour is modelled by a response script: a list
of `ApiResult` values consumed one per API call.  String operations from
Python (`str.lower`, `str.strip`, `','.join`, `int(...)`) are modelled
over `List Char` so that they evaluate inside the kernel.
-/

namespace SpotifyClean

/-! ### Python string and int primitives -/

/-- Model of Python `str.lower()` on character lists (ASCII case folding,
which is what `Char.toLower` implements and what the tool's inputs use). -/
def lowerL (cs : List Char) : List Char := cs.map Char.toLower

/-- Model of Python `str.strip()`: drop whitespace from both ends. -/
def stripL (cs : List Char) : List Char :=
  ((cs.dropWhile Char.isWhitespace).reverse.dropWhile Char.isWhitespace).reverse

/-- Model of Python `','.join(...)` on character lists. -/
def joinCommaL : List (List Char) → List Char
  | [] => []
  | [s] => s
  | s :: rest => s ++ ',' :: joinCommaL rest

/-- Decimal digit value of a character, `none` for non-digits. -/
def pyDigit (c : Char) : Option Nat :=
  if c.isDigit then some (c.toNat - 48) else none

/-- Digit-run parser after the first digit: Python `int` allows single
underscores strictly between digits. -/
def pyNatAux : List Char → Nat → Option Nat
  | [], acc => some acc
  | '_' :: rest, acc =>
    match rest with
    | [] => none
    | c :: rest2 =>
      match pyDigit c with
      | some d => pyNatAux rest2 (acc * 10 + d)
      | none => none
  | c :: rest, acc =>
    match pyDigit c with
    | some d => pyNatAux rest (acc * 10 + d)
    | none => none

/-- Unsigned decimal parser: requires a leading digit. -/
def pyNat : List Char → Option Nat
  | [] => none
  | c :: rest =>
    match pyDigit c with
    | some d => pyNatAux rest d
    | none => none

/-- Model of Python `int(s)` for a decimal string: strips surrounding
whitespace, allows one optional sign, then a digit run; `none` models a
raised `ValueError`. -/
def pyIntL (cs : List Char) : Option Int :=
  match stripL cs with
  | '+' :: rest => (pyNat rest).map (fun n => (n : Int))
  | '-' :: rest => (pyNat rest).map (fun n => -(n : Int))
  | other => (pyNat other).map (fun n => (n : Int))

/-- `int(s)` on a Lean `String`. -/
def pyInt (s : String) : Option Int := pyIntL s.data

/-! ### Data model -/

/-- One non-null playlist item as the source projects it
(`track(name, artists(name), uri, album(release_date))`).  A missing
album release date is `none`; the empty string is also treated as
missing by the source (`if not release_date`). -/
structure TrackEntry where
  name : String
  artists : List String
  uri : String
  releaseDate : Option String := none
  deriving DecidableEq, Repr

/-- A paginated snapshot: pages of slots, a slot holding `none` when the
item's `track` field is null. -/
abbrev Pages := List (List (Option TrackEntry))

/-- The non-null tracks of all pages in source order: the sequence every
`while results: for item in results['items']` loop in the source walks. -/
def pageTracks (pages : Pages) : List TrackEntry :=
  pages.flatten.filterMap id

/-! ### Paginator with positions (remove_duplicates_from_playlist, lines 127-149) -/

/-- The scan loop's body: a single `position` counter, incremented only
when the slot's track is non-null; null slots are skipped. -/
def scanPosAux (pos : Nat) : List (Option TrackEntry) → List (Nat × TrackEntry)
  | [] => []
  | none :: rest => scanPosAux pos rest
  | some t :: rest => (pos, t) :: scanPosAux (pos + 1) rest

/-- The duplicate flow's paginated scan: nested page/item loops with one
running `position` counter, equal to a single pass over the page
concatenation. -/
def paginatorScan (pages : Pages) : List (Nat × TrackEntry) :=
  scanPosAux 0 pages.flatten

/-! ### Criterion matchers -/

/-- Line 75: `any(artist['name'].lower() == artist_name.lower() ...)`. -/
def artistMatch (t : TrackEntry) (artistName : String) : Bool :=
  t.artists.any (fun a => lowerL a.data == lowerL artistName.data)

/-- Line 98: `track['name'].lower() == track_name.lower()`. -/
def nameMatch (t : TrackEntry) (trackName : String) : Bool :=
  lowerL t.name.data == lowerL trackName.data

/-- Lines 246-258: the year-cutoff criterion.  `release_date` absent or
empty is skipped; `int(release_date[:4])` raising skips; otherwise the
entry matches iff the parsed year is strictly below the cutoff. -/
def yearMatch (t : TrackEntry) (cutoff : Int) : Bool :=
  match t.releaseDate with
  | none => false
  | some rd =>
    if rd.data = [] then false
    else
      match pyIntL (rd.data.take 4) with
      | none => false
      | some y => decide (y < cutoff)

/-! ### Duplicate grouping (lines 134-144 and 151-158) -/

/-- Line 135-136: `','.join(a['name'].strip() for ...).lower()`. -/
def artistKeyOf (artists : List String) : List Char :=
  lowerL (joinCommaL (artists.map (fun a => stripL a.data)))

/-- Line 154: the grouping key `name.strip().lower() + "||" + artist_key`. -/
def dupKeyOf (t : TrackEntry) : List Char :=
  lowerL (stripL t.name.data) ++ '|' :: '|' :: artistKeyOf t.artists

/-- Insertion-ordered key deduplication: the key sequence of a Python
dict built by first insertion (`dict.setdefault` / `dict.fromkeys`). -/
def dedupKeepFirst {α : Type} [DecidableEq α] : List α → List α
  | [] => []
  | x :: xs => x :: (dedupKeepFirst xs).filter (fun y => decide (y ≠ x))

/-- Lines 152-155: the `groups` dict in insertion order; each key maps
to the ordered list of scanned items sharing that key. -/
def dupGroups (its : List (Nat × TrackEntry)) : List (List Char × List (Nat × TrackEntry)) :=
  (dedupKeepFirst (its.map (fun it => dupKeyOf it.2))).map
    (fun k => (k, its.filter (fun it => dupKeyOf it.2 == k)))

/-- Line 158: only groups with more than one occurrence are duplicates. -/
def duplicateGroups (its : List (Nat × TrackEntry)) : List (List Char × List (Nat × TrackEntry)) :=
  (dupGroups its).filter (fun g => decide (g.2.length > 1))

/-! ### Chunking (_chunked_list, lines 115-117) -/

/-- `for i in range(0, len(lst), n): yield lst[i:i+n]` for the sizes the
source uses (n = 50 and n = 100). -/
def chunkedList {α : Type} (n : Nat) : List α → List (List α)
  | [] => []
  | x :: xs => (x :: xs.take (n - 1)) :: chunkedList n (xs.drop (n - 1))
termination_by l => l.length
decreasing_by
  simp only [List.length_cons, List.length_drop, Nat.lt_succ_iff]
  exact Nat.sub_le _ _

/-! ### Remote API model -/

/-- Outcome of one remote mutation call, as the source's `except`
clauses distinguish them: success, `SpotifyException` with
`http_status == 429` carrying an optional `Retry-After` header,
`SpotifyException` otherwise, or any other exception. -/
inductive ApiResult where
  | success
  | rateLimited (retryAfter : Option String)
  | rejected
  | failed
  deriving DecidableEq, Repr

/-- Lines 209 / 307: `int(headers.get('Retry-After', '5'))` — the header
string defaults to `"5"` only when absent; `none` models the
`ValueError` a present but unparseable header raises. -/
def retryAfterVal (h : Option String) : Option Int :=
  pyInt (h.getD "5")

/-- The sleep duration actually used for a retry-after header that
parses (absent header: 5). -/
def retryDelay (h : Option String) : Int :=
  (retryAfterVal h).getD 5

/-- A retry-after header the retry loop survives: absent, or parsing to
a nonnegative integer (negative values make `time.sleep` raise). -/
def retryAfterValid (h : Option String) : Prop :=
  ∃ d : Int, retryAfterVal h = some d ∧ 0 ≤ d

/-- Aggregate result of a completed chunk-processing run: removal count,
sleep durations in order, every API call issued (each call the list of
items it submitted), the items whose individual fallback calls failed
(logged and skipped), and the unconsumed response script. -/
structure ChunkOutcome (α : Type) where
  removed : Nat
  sleeps : List Int
  calls : List (List α)
  failedItems : List α
  rest : List ApiResult
  deriving DecidableEq, Repr

/-- Result of running batch-removal code against a response script:
`ok` when the loop finishes, `crash` when an uncaught exception
propagates (bad `Retry-After`), `starved` when the script ran out. -/
inductive BatchResult (α : Type) where
  | ok (o : ChunkOutcome α)
  | crash
  | starved
  deriving DecidableEq, Repr

/-- Lines 216-221 / 314-319: the per-item fallback loop.  Each item gets
its own call; success increments the count, any failure logs the item
and continues. -/
def runFallback {α : Type} : List α → List ApiResult →
    Option (Nat × List α × List (List α) × List ApiResult)
  | [], rs => some (0, [], [], rs)
  | _ :: _, [] => none
  | i :: is, r :: rs =>
    match runFallback is rs with
    | none => none
    | some (n, fails, calls, rest) =>
      match r with
      | .success => some (n + 1, fails, [i] :: calls, rest)
      | _ => some (n, i :: fails, [i] :: calls, rest)

/-- Lines 200-231 / 298-330: the `while True` loop for one chunk.
Success adds the chunk size; a 429 sleeps for the parsed `Retry-After`
and retries the same chunk (an unparseable or negative value raises and
the whole flow aborts); any other failure falls back to per-item
submission and moves on. -/
def processChunk {α : Type} (chunk : List α) : List ApiResult → BatchResult α
  | [] => .starved
  | r :: rs =>
    match r with
    | .success => .ok ⟨chunk.length, [], [chunk], [], rs⟩
    | .rateLimited h =>
      match retryAfterVal h with
      | none => .crash
      | some d =>
        if d < 0 then .crash
        else
          match processChunk chunk rs with
          | .ok o => .ok ⟨o.removed, d :: o.sleeps, chunk :: o.calls, o.failedItems, o.rest⟩
          | e => e
    | _ =>
      match runFallback chunk rs with
      | none => .starved
      | some (n, fails, calls, rest) => .ok ⟨n, [], chunk :: calls, fails, rest⟩

/-- The outer `for chunk in _chunked_list(...)` loop, accumulating the
removal count across chunks. -/
def processChunks {α : Type} : List (List α) → List ApiResult → BatchResult α
  | [], rs => .ok ⟨0, [], [], [], rs⟩
  | c :: cs, rs =>
    match processChunk c rs with
    | .ok o =>
      match processChunks cs o.rest with
      | .ok o2 =>
        .ok ⟨o.removed + o2.removed, o.sleeps ++ o2.sleeps, o.calls ++ o2.calls,
             o.failedItems ++ o2.failedItems, o2.rest⟩
      | e => e
    | e => e

/-! ### The four flows -/

/-- Lines 70-81: the artist flow's scan, collecting `track['uri']` of
every matching non-null item across all pages. -/
def artistScanUris (pages : Pages) (artistName : String) : List String :=
  ((pageTracks pages).filter (fun t => artistMatch t artistName)).map (fun t => t.uri)

/-- Lines 83-88: the artist flow issues a single unchunked
`playlist_remove_all_occurrences_of_items` call with the raw candidate
list, and only when it is nonempty. -/
def artistFlowCalls (pages : Pages) (artistName : String) : List (List String) :=
  let m := artistScanUris pages artistName
  if m.isEmpty then [] else [m]

/-- User-visible outcome of the artist and name flows. -/
inductive SimpleOutcome where
  | noneFound
  | removedMsg (count : Nat)
  | errorLogged
  deriving DecidableEq, Repr

/-- Lines 83-90: outcome of the artist flow under a response script
(`none` when a call is made but the script is exhausted).  Any failure
of the single bulk call is caught and logged; there is no fallback and
no retry. -/
def artistFlowOutcome (pages : Pages) (artistName : String) :
    List ApiResult → Option SimpleOutcome :=
  fun rs =>
    let m := artistScanUris pages artistName
    if m.isEmpty then some .noneFound
    else
      match rs with
      | [] => none
      | .success :: _ => some (.removedMsg m.length)
      | _ :: _ => some .errorLogged

/-- Lines 92-104: the name flow's scan (URIs of items whose name
matches case-insensitively, one per occurrence). -/
def nameScanUris (pages : Pages) (trackName : String) : List String :=
  ((pageTracks pages).filter (fun t => nameMatch t trackName)).map (fun t => t.uri)

/-- Line 108: `list(dict.fromkeys(tracks_to_remove))` — the identities
the name flow actually submits. -/
def nameFlowSubmitted (pages : Pages) (trackName : String) : List String :=
  dedupKeepFirst (nameScanUris pages trackName)

/-- Lines 106-108: the name flow's single bulk call, with the
deduplicated list, only when the raw match list is nonempty. -/
def nameFlowCalls (pages : Pages) (trackName : String) : List (List String) :=
  let m := nameScanUris pages trackName
  if m.isEmpty then [] else [nameFlowSubmitted pages trackName]

/-- Lines 106-113: outcome of the name flow; the success message counts
the raw occurrences (`len(tracks_to_remove)`), not the deduplicated
submission. -/
def nameFlowOutcome (pages : Pages) (trackName : String) :
    List ApiResult → Option SimpleOutcome :=
  fun rs =>
    let m := nameScanUris pages trackName
    if m.isEmpty then some .noneFound
    else
      match rs with
      | [] => none
      | .success :: _ => some (.removedMsg m.length)
      | _ :: _ => some .errorLogged

/-- One selected occurrence in the duplicate flow's removal batch
(line 185): a URI plus the exact scan-time positions list. -/
structure DupRemovalItem where
  uri : String
  positions : List Nat
  deriving DecidableEq, Repr

/-- Lines 197-233: the duplicate flow's batch phase — chunks of 50
positional items through the retry/fallback loop. -/
def dupBatchRun (items : List DupRemovalItem) (rs : List ApiResult) : BatchResult DupRemovalItem :=
  processChunks (chunkedList 50 items) rs

/-- Lines 246-268: the year flow's scan, keeping every matching
occurrence in order. -/
def yearScan (pages : Pages) (cutoff : Int) : List TrackEntry :=
  (pageTracks pages).filter (fun t => yearMatch t cutoff)

/-- Lines 275-277 and 288: `unique_by_uri` keeps first-insertion order
of URIs; its key list is what the year flow submits. -/
def yearFlowSubmitted (pages : Pages) (cutoff : Int) : List String :=
  dedupKeepFirst ((yearScan pages cutoff).map (fun t => t.uri))

/-- Line 283: `input(...).strip().lower()` applied to the confirmation
answer. -/
def normalizeConfirm (s : String) : List Char :=
  lowerL (stripL s.data)

/-- Outcome of the year flow. -/
inductive YearFlowOut where
  | noneFound
  | cancelled
  | nothingToRemove
  | crashed
  | starved
  | finished (o : ChunkOutcome String)
  deriving DecidableEq, Repr

/-- Lines 235-332: the year flow.  No matches: report and return.
Confirmation answer other than `"s"`: cancel before any mutation call.
Otherwise run chunks of 100 unique URIs through the retry/fallback
loop.  (The `if not uris_to_remove` guard at line 289 is kept even
though it is unreachable when matches exist.) -/
def yearFlow (pages : Pages) (cutoff : Int) (confirm : String)
    (rs : List ApiResult) : YearFlowOut :=
  let ms := yearScan pages cutoff
  if ms.isEmpty then .noneFound
  else if normalizeConfirm confirm ≠ ['s'] then .cancelled
  else
    let uris := dedupKeepFirst (ms.map (fun t => t.uri))
    if uris.isEmpty then .nothingToRemove
    else
      match processChunks (chunkedList 100 uris) rs with
      | .ok o => .finished o
      | .crash => .crashed
      | .starved => .starved

/-! ### Helper lemmas -/

theorem mem_dedupKeepFirst {α : Type} [DecidableEq α] (a : α) (l : List α) :
    a ∈ dedupKeepFirst l ↔ a ∈ l := by
  induction l with
  | nil => simp [dedupKeepFirst]
  | cons x xs ih =>
    simp only [dedupKeepFirst, List.mem_cons, List.mem_filter, ih, decide_eq_true_eq]
    constructor
    · rintro (rfl | ⟨h, _⟩)
      · exact Or.inl rfl
      · exact Or.inr h
    · intro h
      rcases h with rfl | h
      · exact Or.inl rfl
      · by_cases hax : a = x
        · exact Or.inl hax
        · exact Or.inr ⟨h, hax⟩

theorem nodup_dedupKeepFirst {α : Type} [DecidableEq α] (l : List α) :
    (dedupKeepFirst l).Nodup := by
  induction l with
  | nil => simp [dedupKeepFirst]
  | cons x xs ih =>
    simp only [dedupKeepFirst, List.nodup_cons]
    refine ⟨fun hx => ?_, ih.filter _⟩
    have := (List.mem_filter.mp hx).2
    simp at this

theorem length_dedupKeepFirst_le {α : Type} [DecidableEq α] (l : List α) :
    (dedupKeepFirst l).length ≤ l.length := by
  induction l with
  | nil => simp [dedupKeepFirst]
  | cons x xs ih =>
    simp only [dedupKeepFirst, List.length_cons]
    have := List.length_filter_le (fun y => decide (y ≠ x)) (dedupKeepFirst xs)
    omega

theorem dedupKeepFirst_eq_self {α : Type} [DecidableEq α] {l : List α} (h : l.Nodup) :
    dedupKeepFirst l = l := by
  induction l with
  | nil => rfl
  | cons x xs ih =>
    rcases List.nodup_cons.mp h with ⟨hx, hnd⟩
    simp only [dedupKeepFirst, ih hnd]
    congr 1
    refine List.filter_eq_self.mpr fun y hy => ?_
    simp only [decide_eq_true_eq]
    rintro rfl
    exact hx hy

theorem length_filter_lt_of_mem {α : Type} {p : α → Bool} {l : List α} {x : α}
    (hx : x ∈ l) (hp : p x = false) : (l.filter p).length < l.length := by
  induction l with
  | nil => cases hx
  | cons y ys ih =>
    rcases List.mem_cons.mp hx with rfl | hmem
    · have := List.length_filter_le p ys
      simp only [List.filter_cons, hp, List.length_cons, Bool.false_eq_true, if_false]
      omega
    · by_cases hy : p y
      · have := ih hmem
        simp only [List.filter_cons, hy, if_true, List.length_cons]
        omega
      · have := List.length_filter_le p ys
        simp only [List.filter_cons, Bool.not_eq_true] at hy
        simp only [List.filter_cons, hy, List.length_cons, Bool.false_eq_true, if_false]
        omega

theorem length_dedupKeepFirst_lt {α : Type} [DecidableEq α] {l : List α} (h : ¬ l.Nodup) :
    (dedupKeepFirst l).length < l.length := by
  induction l with
  | nil => exact absurd List.nodup_nil h
  | cons x xs ih =>
    simp only [dedupKeepFirst, List.length_cons]
    by_cases hx : x ∈ xs
    · have hx' : x ∈ dedupKeepFirst xs := (mem_dedupKeepFirst x xs).mpr hx
      have h1 : ((dedupKeepFirst xs).filter (fun y => decide (y ≠ x))).length <
          (dedupKeepFirst xs).length :=
        length_filter_lt_of_mem hx' (by simp)
      have h2 := length_dedupKeepFirst_le xs
      omega
    · have hxs : ¬ xs.Nodup := fun hnd => h (List.nodup_cons.mpr ⟨hx, hnd⟩)
      have h1 := ih hxs
      have h2 := List.length_filter_le (fun y => decide (y ≠ x)) (dedupKeepFirst xs)
      omega

theorem count_dedupKeepFirst {α : Type} [DecidableEq α] {l : List α} {a : α} (h : a ∈ l) :
    (dedupKeepFirst l).count a = 1 :=
  List.count_eq_one_of_mem (nodup_dedupKeepFirst l) ((mem_dedupKeepFirst a l).mpr h)

theorem dedupKeepFirst_ne_nil {α : Type} [DecidableEq α] {l : List α} (h : l ≠ []) :
    dedupKeepFirst l ≠ [] := by
  cases l with
  | nil => exact absurd rfl h
  | cons x xs => simp [dedupKeepFirst]

theorem scanPosAux_map_snd (p : Nat) (l : List (Option TrackEntry)) :
    (scanPosAux p l).map Prod.snd = l.filterMap id := by
  induction l generalizing p with
  | nil => rfl
  | cons o rest ih =>
    cases o with
    | none => simpa [scanPosAux, List.filterMap_cons] using ih p
    | some t => simp [scanPosAux, List.filterMap_cons, ih]

theorem scanPosAux_map_fst (p : Nat) (l : List (Option TrackEntry)) :
    (scanPosAux p l).map Prod.fst =
      (List.range (l.filterMap id).length).map (fun i => p + i) := by
  induction l generalizing p with
  | nil => rfl
  | cons o rest ih =>
    cases o with
    | none => simpa [scanPosAux, List.filterMap_cons] using ih p
    | some t =>
      have hfun : ((fun i => p + i) ∘ Nat.succ) = (fun i => p + 1 + i) := by
        funext i
        simp only [Function.comp_apply]
        omega
      simp only [scanPosAux, List.map_cons, List.filterMap_cons, id, List.length_cons]
      rw [List.range_succ_eq_map, List.map_cons, List.map_map, hfun, ih (p + 1)]
      simp

theorem chunkedList_cons {α : Type} (n : Nat) (x : α) (xs : List α) :
    chunkedList n (x :: xs) =
      (x :: xs.take (n - 1)) :: chunkedList n (xs.drop (n - 1)) := by
  rw [chunkedList]

theorem flatten_chunkedList {α : Type} (n : Nat) (l : List α) :
    (chunkedList n l).flatten = l := by
  induction l using chunkedList.induct n with
  | case1 => simp [chunkedList]
  | case2 x xs ih =>
    rw [chunkedList_cons]
    simp [ih]

theorem length_le_of_mem_chunkedList {α : Type} {n : Nat} {l : List α} {c : List α}
    (hn : 1 ≤ n) (hc : c ∈ chunkedList n l) : c.length ≤ n := by
  induction l using chunkedList.induct n with
  | case1 => simp [chunkedList] at hc
  | case2 x xs ih =>
    rw [chunkedList_cons] at hc
    rcases List.mem_cons.mp hc with rfl | hmem
    · have := List.length_take_le (n - 1) xs
      simp only [List.length_cons]
      omega
    · exact ih hmem

theorem runFallback_eq_some {α : Type} :
    ∀ (items : List α) (rs : List ApiResult) (n : Nat) (fails : List α)
      (calls : List (List α)) (rest : List ApiResult),
      runFallback items rs = some (n, fails, calls, rest) →
      n + fails.length = items.length ∧ calls = items.map (fun i => [i]) ∧
        rest = rs.drop items.length
  | [], rs, n, fails, calls, rest, h => by
    simp only [runFallback, Option.some.injEq, Prod.mk.injEq] at h
    obtain ⟨rfl, rfl, rfl, rfl⟩ := h
    simp
  | i :: is, [], n, fails, calls, rest, h => by
    simp [runFallback] at h
  | i :: is, r :: rs, n, fails, calls, rest, h => by
    simp only [runFallback] at h
    rcases hrec : runFallback is rs with _ | ⟨n', fails', calls', rest'⟩
    · rw [hrec] at h
      simp at h
    · rw [hrec] at h
      obtain ⟨h1, h2, h3⟩ := runFallback_eq_some is rs n' fails' calls' rest' hrec
      cases r <;> simp only [Option.some.injEq, Prod.mk.injEq] at h <;>
        obtain ⟨rfl, rfl, rfl, rfl⟩ := h <;>
        simp_all <;> omega

theorem runFallback_script {α : Type} :
    ∀ (items : List α) (irs : List ApiResult) (rest : List ApiResult),
      irs.length = items.length →
      runFallback items (irs ++ rest) =
        some ((irs.filter (fun r => r == ApiResult.success)).length,
              ((items.zip irs).filter (fun p => p.2 != ApiResult.success)).map Prod.fst,
              items.map (fun i => [i]),
              rest)
  | [], irs, rest, h => by
    rw [List.length_eq_zero.mp h]
    simp [runFallback]
  | i :: is, irs, rest, h => by
    cases irs with
    | nil => simp at h
    | cons r irs' =>
      simp only [List.length_cons, Nat.add_right_cancel_iff] at h
      have ih := runFallback_script is irs' rest h
      simp only [List.cons_append, runFallback]
      cases r <;> simp [ih, List.filter_cons]

theorem processChunk_ok_removed_le {α : Type} {chunk : List α} :
    ∀ {rs : List ApiResult} {o : ChunkOutcome α},
      processChunk chunk rs = .ok o → o.removed ≤ chunk.length := by
  intro rs
  induction rs with
  | nil =>
    intro o h
    simp [processChunk] at h
  | cons r rs ih =>
    intro o h
    cases r with
    | success =>
      simp only [processChunk, BatchResult.ok.injEq] at h
      subst h
      simp
    | rateLimited hdr =>
      simp only [processChunk] at h
      split at h
      · simp at h
      · split at h
        · simp at h
        · split at h
          · rename_i o' hrec
            simp only [BatchResult.ok.injEq] at h
            subst h
            show o'.removed ≤ chunk.length
            exact ih hrec
          · rename_i hv he hcontra
            exact absurd h (hcontra o)
    | rejected =>
      simp only [processChunk] at h
      rcases hfb : runFallback chunk rs with _ | ⟨n, fails, calls, rest⟩ <;> rw [hfb] at h
      · simp at h
      · simp only [BatchResult.ok.injEq] at h
        subst h
        have := (runFallback_eq_some chunk rs n fails calls rest hfb).1
        simp only
        omega
    | failed =>
      simp only [processChunk] at h
      rcases hfb : runFallback chunk rs with _ | ⟨n, fails, calls, rest⟩ <;> rw [hfb] at h
      · simp at h
      · simp only [BatchResult.ok.injEq] at h
        subst h
        have := (runFallback_eq_some chunk rs n fails calls rest hfb).1
        simp only
        omega

theorem processChunks_ok_removed_le {α : Type} :
    ∀ (cs : List (List α)) {rs : List ApiResult} {o : ChunkOutcome α},
      processChunks cs rs = .ok o → o.removed ≤ cs.flatten.length
  | [], rs, o, h => by
    simp only [processChunks, BatchResult.ok.injEq] at h
    subst h
    simp
  | c :: cs, rs, o, h => by
    simp only [processChunks] at h
    split at h
    · rename_i o1 h1
      split at h
      · rename_i o2 h2
        simp only [BatchResult.ok.injEq] at h
        subst h
        have hle1 := processChunk_ok_removed_le h1
        have hle2 := processChunks_ok_removed_le cs h2
        show o1.removed + o2.removed ≤ (List.flatten (c :: cs)).length
        simp only [List.flatten_cons, List.length_append]
        omega
      · rename_i hcontra
        exact absurd h (hcontra o)
    · rename_i hcontra
      exact absurd h (hcontra o)

theorem processChunk_rateLimit {α : Type} (chunk : List α) :
    ∀ (hs : List (Option String)) (rest : List ApiResult),
      (∀ h ∈ hs, retryAfterValid h) →
      processChunk chunk (hs.map ApiResult.rateLimited ++ ApiResult.success :: rest) =
        .ok ⟨chunk.length, hs.map retryDelay, List.replicate (hs.length + 1) chunk, [], rest⟩
  | [], rest, _ => by
    simp [processChunk, List.replicate_succ]
  | h :: hs, rest, hv => by
    obtain ⟨d, hd, hd0⟩ := hv h (List.mem_cons_self h hs)
    have ihv : ∀ h' ∈ hs, retryAfterValid h' := fun h' hh => hv h' (List.mem_cons_of_mem h hh)
    simp only [List.map_cons, List.cons_append, processChunk, hd, List.append_eq]
    rw [if_neg (by omega), processChunk_rateLimit chunk hs rest ihv]
    simp [retryDelay, hd, List.replicate_succ, List.length_cons]

theorem processChunks_allSuccess {α : Type} :
    ∀ (cs : List (List α)) (rest : List ApiResult),
      processChunks cs (List.replicate cs.length ApiResult.success ++ rest) =
        .ok ⟨cs.flatten.length, [], cs, [], rest⟩
  | [], rest => by simp [processChunks]
  | c :: cs, rest => by
    simp only [List.length_cons, List.replicate_succ, List.cons_append, processChunks,
      processChunk, List.append_eq]
    rw [processChunks_allSuccess cs rest]
    simp

theorem processChunk_fallback {α : Type} (chunk : List α) (r : ApiResult)
    (irs rest : List ApiResult) (hr : r = ApiResult.rejected ∨ r = ApiResult.failed)
    (hlen : irs.length = chunk.length) :
    processChunk chunk (r :: (irs ++ rest)) =
      .ok ⟨(irs.filter (fun x => x == ApiResult.success)).length, [],
           chunk :: chunk.map (fun i => [i]),
           ((chunk.zip irs).filter (fun p => p.2 != ApiResult.success)).map Prod.fst,
           rest⟩ := by
  rcases hr with rfl | rfl <;>
    simp [processChunk, runFallback_script chunk irs rest hlen]

/-! ### Claims -/

/-- Claim C5: the paginated scan yields exactly the non-null track
entries in source order, with positions exactly 0, 1, 2, ... (null
slots are skipped without incrementing the counter). -/
theorem C5_paginator (pages : Pages) :
    (paginatorScan pages).map Prod.snd = pages.flatten.filterMap id ∧
    (paginatorScan pages).map Prod.fst =
      List.range ((pages.flatten.filterMap id).length) := by
  refine ⟨scanPosAux_map_snd 0 pages.flatten, ?_⟩
  rw [paginatorScan, scanPosAux_map_fst]
  simp

/-- Claim C7: the year-cutoff criterion matches exactly when the
release date is present (non-null, nonempty), its first four characters
parse as an integer, and that integer is strictly below the cutoff. -/
theorem C7_year_cutoff (t : TrackEntry) (cutoff : Int) :
    yearMatch t cutoff = true ↔
      ∃ rd y, t.releaseDate = some rd ∧ rd.data ≠ [] ∧
        pyIntL (rd.data.take 4) = some y ∧ y < cutoff := by
  rcases hrd : t.releaseDate with _ | rd
  · simp [yearMatch, hrd]
  · simp only [yearMatch, hrd, Option.some.injEq]
    by_cases hd : rd.data = []
    · simp only [hd, if_true]
      constructor
      · intro h
        cases h
      · rintro ⟨rd', y, rfl, hne, _⟩
        exact absurd hd hne
    · simp only [hd, if_false]
      rcases hy : pyIntL (rd.data.take 4) with _ | y
      · constructor
        · intro h
          cases h
        · rintro ⟨rd', y, rfl, _, hy', _⟩
          rw [hy] at hy'
          cases hy'
      · simp only [decide_eq_true_eq]
        constructor
        · intro h
          exact ⟨rd, y, rfl, hd, hy, h⟩
        · rintro ⟨rd', y', rfl, _, hy', hlt⟩
          rw [hy] at hy'
          cases hy'
          exact hlt

/-- Witness for C7: release date 2008-03-01 with cutoff 2010 matches;
a missing release date and an unparseable one never match. -/
theorem C7_year_cutoff_witness :
    yearMatch ⟨"x", ["a"], "u", some "2008-03-01"⟩ 2010 = true ∧
    yearMatch ⟨"x", ["a"], "u", none⟩ 2010 = false ∧
    yearMatch ⟨"x", ["a"], "u", some "unknown"⟩ 2010 = false := by
  refine ⟨?_, by decide, by decide⟩
  exact (C7_year_cutoff ⟨"x", ["a"], "u", some "2008-03-01"⟩ 2010).mpr
    ⟨"2008-03-01", 2008, rfl, by decide, by decide, by decide⟩

/-- Claim C1, counterexample: a rate-limit response whose Retry-After
header is present but unparseable does not lead to a 5-second default
and a retry; the int() call raises and the whole flow aborts, abandoning
the chunk.  Here the duplicate flow's batch phase crashes even though
the next scripted response would have been success. -/
theorem C1_counterexample :
    dupBatchRun [⟨"u", [0]⟩]
      [ApiResult.rateLimited (some "abc"), ApiResult.success] = .crash := by
  have hc : chunkedList 50 [(⟨"u", [0]⟩ : DupRemovalItem)] = [[⟨"u", [0]⟩]] := by
    simp [chunkedList]
  simp only [dupBatchRun, hc]
  decide

/-- Claim C1 (amended): when every rate-limit response carries an
absent or parseable nonnegative Retry-After header, the chunk loop
sleeps for each directed duration (5 when the header is absent),
retries the same chunk each time, and succeeds with the full chunk
counted; rate limiting alone never abandons the chunk. -/
theorem C1_rate_limit_retry {α : Type} (chunk : List α) (hs : List (Option String))
    (rest : List ApiResult) (hv : ∀ h ∈ hs, retryAfterValid h) :
    processChunk chunk (hs.map ApiResult.rateLimited ++ ApiResult.success :: rest) =
      .ok ⟨chunk.length, hs.map retryDelay, List.replicate (hs.length + 1) chunk, [], rest⟩ ∧
    retryAfterVal none = some 5 :=
  ⟨processChunk_rateLimit chunk hs rest hv, by decide⟩

/-- Witness for C1: two rate limits (absent header, then header 7)
followed by success — the chunk is retried with sleeps 5 and 7 and
finally counted. -/
theorem C1_rate_limit_retry_witness :
    processChunk (["u"] : List String)
        ([none, some "7"].map ApiResult.rateLimited ++ ApiResult.success :: []) =
      .ok ⟨1, [5, 7], [["u"], ["u"], ["u"]], [], []⟩ ∧
    retryAfterVal none = some 5 := by
  have hv : ∀ h ∈ ([none, some "7"] : List (Option String)), retryAfterValid h := by
    intro h hh
    rcases List.mem_cons.mp hh with rfl | hh'
    · exact ⟨5, by decide, by decide⟩
    · rcases List.mem_cons.mp hh' with rfl | hh''
      · exact ⟨7, by decide, by decide⟩
      · cases hh''
  have h := C1_rate_limit_retry (["u"] : List String) [none, some "7"] [] hv
  refine ⟨?_, h.2⟩
  rw [h.1]
  decide

/-- Claim C2, counterexample: the artist flow does not fall back to
per-item submission when its bulk call is rejected — it issues exactly
one call with the whole candidate list, logs the error and stops, even
though further (successful) responses were available. -/
theorem C2_counterexample :
    artistFlowCalls
        [[some ⟨"t1", ["a"], "u1", none⟩, some ⟨"t2", ["a"], "u2", none⟩]] "a" =
      [["u1", "u2"]] ∧
    artistFlowOutcome
        [[some ⟨"t1", ["a"], "u1", none⟩, some ⟨"t2", ["a"], "u2", none⟩]] "a"
        [ApiResult.rejected, ApiResult.success, ApiResult.success] =
      some .errorLogged := by
  decide

/-- Claim C2 (amended, holding for the chunked duplicate and year-cutoff
flows): when a chunk's bulk call fails with a non-rate-limit error, each
item of the chunk is submitted individually; each successful item adds 1
to the count, each failing item is recorded and skipped, the loop never
aborts, and the chunk completes normally (no fatal propagation). -/
theorem C2_fallback_isolation {α : Type} (chunk : List α) (r : ApiResult)
    (irs rest : List ApiResult) (hr : r = ApiResult.rejected ∨ r = ApiResult.failed)
    (hlen : irs.length = chunk.length) :
    processChunk chunk (r :: (irs ++ rest)) =
      .ok ⟨(irs.filter (fun x => x == ApiResult.success)).length, [],
           chunk :: chunk.map (fun i => [i]),
           ((chunk.zip irs).filter (fun p => p.2 != ApiResult.success)).map Prod.fst,
           rest⟩ :=
  processChunk_fallback chunk r irs rest hr hlen

/-- Witness for C2: a chunk of three items whose bulk call is rejected;
per-item calls succeed for items 1 and 3 and fail for item 2 — the
count is 2, item 2 is recorded as failed, and processing completed. -/
theorem C2_fallback_isolation_witness :
    processChunk (["a", "b", "c"] : List String)
        (ApiResult.rejected ::
          ([ApiResult.success, ApiResult.failed, ApiResult.success] ++ [])) =
      .ok ⟨2, [], [["a", "b", "c"], ["a"], ["b"], ["c"]], ["b"], []⟩ := by
  rw [C2_fallback_isolation (["a", "b", "c"] : List String) ApiResult.rejected
    [ApiResult.success, ApiResult.failed, ApiResult.success] [] (Or.inl rfl) (by decide)]
  decide

/-- Claim C3, counterexample: the artist flow does not deduplicate its
candidate list — a playlist holding the same track (same URI) twice by
the targeted artist submits that identity twice in one call. -/
theorem C3_counterexample :
    artistFlowCalls
        [[some ⟨"t", ["a"], "u", none⟩, some ⟨"t", ["a"], "u", none⟩]] "a" =
      [["u", "u"]] ∧
    (["u", "u"] : List String).count "u" = 2 := by
  decide

/-- Claim C3 (amended, holding for the name and year-cutoff flows):
their submitted candidate lists are deduplicated by identity, so an
identity matched more than once is submitted exactly once. -/
theorem C3_dedup_by_identity (pages : Pages) (trackName : String) (cutoff : Int) :
    (nameFlowSubmitted pages trackName).Nodup ∧
    (∀ u ∈ nameScanUris pages trackName, (nameFlowSubmitted pages trackName).count u = 1) ∧
    (yearFlowSubmitted pages cutoff).Nodup ∧
    (∀ u ∈ (yearScan pages cutoff).map (fun t => t.uri),
      (yearFlowSubmitted pages cutoff).count u = 1) :=
  ⟨nodup_dedupKeepFirst _, fun _ hu => count_dedupKeepFirst hu,
   nodup_dedupKeepFirst _, fun _ hu => count_dedupKeepFirst hu⟩

/-- Witness for C3: a playlist with the same matching URI twice — the
name flow submits it exactly once. -/
theorem C3_dedup_by_identity_witness :
    "u" ∈ nameScanUris [[some ⟨"x", ["a"], "u", none⟩, some ⟨"x", ["b"], "u", none⟩]] "x" ∧
    (nameFlowSubmitted [[some ⟨"x", ["a"], "u", none⟩, some ⟨"x", ["b"], "u", none⟩]] "x").count "u" = 1 :=
  ⟨by decide,
   (C3_dedup_by_identity [[some ⟨"x", ["a"], "u", none⟩, some ⟨"x", ["b"], "u", none⟩]]
     "x" 0).2.1 "u" (by decide)⟩

/-- Claim C4, counterexample: the artist flow (a by-identity removal
flow) does not chunk at all — 101 matching candidates go to the removal
API in a single call of 101 items, exceeding the claimed bound of 100. -/
theorem C4_counterexample :
    artistFlowCalls [List.replicate 101 (some ⟨"t", ["a"], "u", none⟩)] "a" =
      [List.replicate 101 "u"] ∧
    (List.replicate 101 ("u" : String)).length = 101 := by
  refine ⟨?_, by simp⟩
  have hscan : artistScanUris [List.replicate 101 (some ⟨"t", ["a"], "u", none⟩)] "a" =
      List.replicate 101 "u" := by
    simp [artistScanUris, pageTracks, List.filterMap_replicate, List.filter_replicate,
      artistMatch, List.map_replicate]
  simp only [artistFlowCalls, hscan]
  rw [if_neg (by decide)]

/-- Claim C4 (amended, holding for the duplicate and year-cutoff flows):
the candidate list is partitioned into chunks — at most 50 positional
items for the duplicate flow and at most 100 identities for the
year-cutoff flow — and concatenating the chunks gives back exactly the
candidate list, so every candidate appears in exactly one chunk. -/
theorem C4_chunk_partition (items : List DupRemovalItem) (uris : List String) :
    (chunkedList 50 items).flatten = items ∧
    (∀ c ∈ chunkedList 50 items, c.length ≤ 50) ∧
    (chunkedList 100 uris).flatten = uris ∧
    (∀ c ∈ chunkedList 100 uris, c.length ≤ 100) :=
  ⟨flatten_chunkedList 50 items,
   fun _ hc => length_le_of_mem_chunkedList (by omega) hc,
   flatten_chunkedList 100 uris,
   fun _ hc => length_le_of_mem_chunkedList (by omega) hc⟩

/-- Witness for C4: a singleton candidate list forms one chunk holding
it, within bounds. -/
theorem C4_chunk_partition_witness :
    (chunkedList 50 [(⟨"u", [3]⟩ : DupRemovalItem)]).flatten = [⟨"u", [3]⟩] ∧
    (chunkedList 100 ["u"]).flatten = ["u"] ∧
    ([(⟨"u", [3]⟩ : DupRemovalItem)]).length ≤ 50 := by
  have h := C4_chunk_partition [⟨"u", [3]⟩] ["u"]
  have hc : chunkedList 50 [(⟨"u", [3]⟩ : DupRemovalItem)] = [[⟨"u", [3]⟩]] := by
    simp [chunkedList]
  exact ⟨h.1, h.2.2.1, h.2.1 [⟨"u", [3]⟩] (by rw [hc]; exact List.mem_singleton.mpr rfl)⟩

/-- Claim C6, counterexample: two entries with the same name but
different artist lists land in the same duplicate group, because the
grouping key joins artist names with commas — artists a,b (one name
containing a comma) and a, b (two names) produce the same key. -/
theorem C6_counterexample :
    duplicateGroups
        (paginatorScan [[some ⟨"x", ["a,b"], "u1", none⟩, some ⟨"x", ["a", "b"], "u2", none⟩]]) =
      [("x||a,b".data,
        [(0, ⟨"x", ["a,b"], "u1", none⟩), (1, ⟨"x", ["a", "b"], "u2", none⟩)])] ∧
    (["a,b"] : List String) ≠ ["a", "b"] := by
  decide

/-- Claim C6 (amended): grouping is exactly by the key formed from the
stripped lowercased name, two pipe characters, and the comma-joined
stripped lowercased artist names in original order; a pair is a
reported duplicate group precisely when its key occurs in the scan and
its member list — all scanned items with that key, in order — has more
than one element.  (Entries with different artist lists share a group
exactly when their comma-joined keys coincide, which can happen when an
artist name itself contains a comma.) -/
theorem C6_duplicate_grouping (its : List (Nat × TrackEntry)) (k : List Char)
    (g : List (Nat × TrackEntry)) :
    (k, g) ∈ duplicateGroups its ↔
      k ∈ its.map (fun it => dupKeyOf it.2) ∧
      g = its.filter (fun it => dupKeyOf it.2 == k) ∧ 1 < g.length := by
  have hdg : (k, g) ∈ dupGroups its ↔
      k ∈ its.map (fun it => dupKeyOf it.2) ∧
        g = its.filter (fun it => dupKeyOf it.2 == k) := by
    simp only [dupGroups, List.mem_map, mem_dedupKeepFirst, Prod.mk.injEq]
    constructor
    · rintro ⟨k', hk', rfl, rfl⟩
      exact ⟨hk', rfl⟩
    · rintro ⟨hk, rfl⟩
      exact ⟨k, hk, rfl, rfl⟩
  simp only [duplicateGroups, List.mem_filter, decide_eq_true_eq, hdg]
  tauto

/-- Witness for C6: the entries Song by A, song by a, Song by B yield
exactly one reported duplicate group, holding the first two
occurrences; the third entry is in no reported group. -/
theorem C6_duplicate_grouping_witness :
    ("song||a".data,
        [(0, (⟨"Song", ["A"], "u1", none⟩ : TrackEntry)),
         (1, ⟨"song", ["a"], "u2", none⟩)]) ∈
      duplicateGroups
        [(0, ⟨"Song", ["A"], "u1", none⟩), (1, ⟨"song", ["a"], "u2", none⟩),
         (2, ⟨"Song", ["B"], "u3", none⟩)] ∧
    duplicateGroups
        [(0, ⟨"Song", ["A"], "u1", none⟩), (1, ⟨"song", ["a"], "u2", none⟩),
         (2, ⟨"Song", ["B"], "u3", none⟩)] =
      [("song||a".data,
        [(0, ⟨"Song", ["A"], "u1", none⟩), (1, ⟨"song", ["a"], "u2", none⟩)])] := by
  refine ⟨(C6_duplicate_grouping
    [(0, ⟨"Song", ["A"], "u1", none⟩), (1, ⟨"song", ["a"], "u2", none⟩),
     (2, ⟨"Song", ["B"], "u3", none⟩)]
    "song||a".data
    [(0, ⟨"Song", ["A"], "u1", none⟩), (1, ⟨"song", ["a"], "u2", none⟩)]).mpr
    ⟨by decide, by decide, by decide⟩, by decide⟩

/-- Claim C8: the year-cutoff flow removes only after the user answers
exactly s (any other answer cancels before any mutation call, whatever
the remote would have answered), and when confirmed it runs the batch
remover over the collected candidates; the artist and name flows issue
their removal call immediately — their call trace is fixed by the scan
alone, with no confirmation input in their interface. -/
theorem C8_confirmation (pages : Pages) (cutoff : Int) (confirm : String)
    (rs : List ApiResult) (artistName trackName : String) :
    (yearScan pages cutoff ≠ [] → normalizeConfirm confirm ≠ ['s'] →
      yearFlow pages cutoff confirm rs = .cancelled) ∧
    (yearScan pages cutoff ≠ [] → normalizeConfirm confirm = ['s'] →
      yearFlow pages cutoff confirm
          (List.replicate (chunkedList 100 (yearFlowSubmitted pages cutoff)).length
            ApiResult.success) =
        .finished ⟨(yearFlowSubmitted pages cutoff).length, [],
          chunkedList 100 (yearFlowSubmitted pages cutoff), [], []⟩) ∧
    (artistScanUris pages artistName ≠ [] →
      artistFlowCalls pages artistName = [artistScanUris pages artistName]) ∧
    (nameScanUris pages trackName ≠ [] →
      nameFlowCalls pages trackName = [nameFlowSubmitted pages trackName]) := by
  refine ⟨?_, ?_, ?_, ?_⟩
  · intro hms hconf
    simp only [yearFlow]
    rw [if_neg (by simpa [List.isEmpty_iff] using hms), if_pos hconf]
  · intro hms hconf
    simp only [yearFlow, yearFlowSubmitted]
    rw [if_neg (by simpa [List.isEmpty_iff] using hms), if_neg (not_not_intro hconf)]
    have hne : ¬ ((dedupKeepFirst ((yearScan pages cutoff).map (fun t => t.uri))).isEmpty
        = true) := by
      have : dedupKeepFirst ((yearScan pages cutoff).map (fun t => t.uri)) ≠ [] :=
        dedupKeepFirst_ne_nil (by simpa using hms)
      simpa [List.isEmpty_iff] using this
    rw [if_neg hne]
    have hcs := processChunks_allSuccess
      (chunkedList 100 (dedupKeepFirst ((yearScan pages cutoff).map (fun t => t.uri))))
      ([] : List ApiResult)
    rw [List.append_nil] at hcs
    rw [hcs, flatten_chunkedList]
  · intro h
    simp only [artistFlowCalls]
    rw [if_neg (by simpa [List.isEmpty_iff] using h)]
  · intro h
    simp only [nameFlowCalls]
    rw [if_neg (by simpa [List.isEmpty_iff] using h)]

/-- Witness for C8: one matching track, answer n — the year flow
cancels without consulting the remote at all; the artist flow issues
its call immediately. -/
theorem C8_confirmation_witness :
    yearScan [[some ⟨"x", ["a"], "u", some "1999-01-01"⟩]] 2010 ≠ [] ∧
    normalizeConfirm "n" ≠ ['s'] ∧
    yearFlow [[some ⟨"x", ["a"], "u", some "1999-01-01"⟩]] 2010 "n" [] = .cancelled ∧
    artistFlowCalls [[some ⟨"x", ["a"], "u", some "1999-01-01"⟩]] "a" =
      [artistScanUris [[some ⟨"x", ["a"], "u", some "1999-01-01"⟩]] "a"] :=
  ⟨by decide, by decide,
   (C8_confirmation [[some ⟨"x", ["a"], "u", some "1999-01-01"⟩]] 2010 "n" [] "a" "x").1
     (by decide) (by decide),
   (C8_confirmation [[some ⟨"x", ["a"], "u", some "1999-01-01"⟩]] 2010 "n" [] "a" "x").2.2.1
     (by decide)⟩

/-- Claim C9: in the duplicate and year-cutoff flows, the removal count
reported after all chunks are processed never exceeds the number of
candidates submitted to the batch remover. -/
theorem C9_removed_le_candidates (items : List DupRemovalItem) (pages : Pages)
    (cutoff : Int) (confirm : String) (rs rs2 : List ApiResult)
    (o : ChunkOutcome DupRemovalItem) (o2 : ChunkOutcome String) :
    (dupBatchRun items rs = .ok o → o.removed ≤ items.length) ∧
    (yearFlow pages cutoff confirm rs2 = .finished o2 →
      o2.removed ≤ (yearFlowSubmitted pages cutoff).length) := by
  constructor
  · intro h
    simp only [dupBatchRun] at h
    have := processChunks_ok_removed_le (chunkedList 50 items) h
    rwa [flatten_chunkedList] at this
  · intro h
    simp only [yearFlow] at h
    split at h
    · simp at h
    · split at h
      · simp at h
      · split at h
        · simp at h
        · split at h
          · rename_i o' hrun
            simp only [YearFlowOut.finished.injEq] at h
            subst h
            have := processChunks_ok_removed_le _ hrun
            rw [flatten_chunkedList] at this
            simpa [yearFlowSubmitted] using this
          · simp at h
          · simp at h

/-- Witness for C9: one positional candidate, one successful bulk call —
one removal reported, not exceeding the single candidate. -/
theorem C9_removed_le_candidates_witness :
    dupBatchRun [(⟨"u", [0]⟩ : DupRemovalItem)] [ApiResult.success] =
      .ok ⟨1, [], [[⟨"u", [0]⟩]], [], []⟩ ∧
    (ChunkOutcome.removed ⟨1, [], [[(⟨"u", [0]⟩ : DupRemovalItem)]], [], []⟩ ≤
      ([(⟨"u", [0]⟩ : DupRemovalItem)]).length) := by
  have hc : chunkedList 50 [(⟨"u", [0]⟩ : DupRemovalItem)] = [[⟨"u", [0]⟩]] := by
    simp [chunkedList]
  have hrun : dupBatchRun [(⟨"u", [0]⟩ : DupRemovalItem)] [ApiResult.success] =
      .ok ⟨1, [], [[⟨"u", [0]⟩]], [], []⟩ := by
    simp only [dupBatchRun, hc]
    decide
  exact ⟨hrun,
    (C9_removed_le_candidates [⟨"u", [0]⟩] [] 0 "" [ApiResult.success] []
      ⟨1, [], [[⟨"u", [0]⟩]], [], []⟩ ⟨0, [], [], [], []⟩).1 hrun⟩

/-- Claim C10: on success the name flow reports the number of matching
occurrences found in the scan, while it submits the deduplicated
identities; with a repeated matching track the reported count strictly
exceeds the number of submitted identities. -/
theorem C10_reported_occurrences (pages : Pages) (trackName : String)
    (rs : List ApiResult) (h : nameScanUris pages trackName ≠ []) :
    nameFlowOutcome pages trackName (ApiResult.success :: rs) =
      some (.removedMsg (nameScanUris pages trackName).length) ∧
    nameFlowCalls pages trackName = [nameFlowSubmitted pages trackName] ∧
    (¬ (nameScanUris pages trackName).Nodup →
      (nameFlowSubmitted pages trackName).length <
        (nameScanUris pages trackName).length) := by
  have hne : ¬ ((nameScanUris pages trackName).isEmpty = true) := by
    simpa [List.isEmpty_iff] using h
  refine ⟨?_, ?_, fun hnd => ?_⟩
  · simp only [nameFlowOutcome]
    rw [if_neg hne]
  · simp only [nameFlowCalls]
    rw [if_neg hne]
  · simpa [nameFlowSubmitted] using length_dedupKeepFirst_lt hnd

/-- Witness for C10: the same track twice — the flow reports 2 removed
occurrences while submitting a single identity. -/
theorem C10_reported_occurrences_witness :
    nameFlowOutcome [[some ⟨"x", ["a"], "u", none⟩, some ⟨"x", ["b"], "u", none⟩]] "x"
        (ApiResult.success :: []) = some (.removedMsg 2) ∧
    nameFlowSubmitted [[some ⟨"x", ["a"], "u", none⟩, some ⟨"x", ["b"], "u", none⟩]] "x" =
      ["u"] := by
  have h := C10_reported_occurrences
    [[some ⟨"x", ["a"], "u", none⟩, some ⟨"x", ["b"], "u", none⟩]] "x" [] (by decide)
  refine ⟨?_, by decide⟩
  rw [h.1]
  decide

end SpotifyClean
